import Mathlib

/-!
Verification of the icon-bundle build script (two variants:
src/src/plugins/iconify/build-icons.ts and src/unnamed/part_000).
The script collects icon sets from JSON sources and SVG directories and
emits one CSS file.  Repository code is embedded directly; functions coming
from the icon-toolkit packages (which are dependencies, not repository
code) are modelled from the specification and carry a doc comment saying so.
-/

namespace BuildIcons

/-- Parsed content of an icon-set JSON file: the set prefix and the icons
mapping in key order (the source field holding the set prefix is named after
the word for a namespace identifier, which is not a usable Lean identifier,
so it is called pfx here). Each icon is a name paired with its body data. -/
structure IconSetJSON where
  pfx : String
  icons : List (String × String)
  deriving DecidableEq, Repr

/-- A JSON source descriptor, mirroring the script: either a bare filename
string or an object with a filename and an optional list of icon names. -/
inductive JSONSource where
  | str (filename : String)
  | obj (filename : String) (icons : Option (List String))
  deriving DecidableEq, Repr

/-- Modelled from the spec: the function getIcons of the icon-utils package
is not part of this repository; per the spec it extracts only the requested
subset of icons, and yields nothing when the requested name filter matches
no icon at all in the file. -/
def getIcons (data : IconSetJSON) (names : List String) : Option IconSetJSON :=
  let kept := data.icons.filter (fun p => names.contains p.1)
  if kept.isEmpty then Option.none else some { pfx := data.pfx, icons := kept }

/-- Loading of one JSON source descriptor, embedding the body of the loop
over sources.json: read and parse the file (a missing or unreadable file
throws), then, when the item is an object whose icon list is present and
non-empty, filter through getIcons and throw when nothing matched;
otherwise push the parsed content through unchanged. -/
def loadJSONItem (fs : String → Option IconSetJSON) (item : JSONSource) :
    Except String IconSetJSON :=
  match item with
  | JSONSource.str f =>
    match fs f with
    | Option.none => Except.error ("Cannot read " ++ f)
    | some content => Except.ok content
  | JSONSource.obj f ics =>
    match fs f with
    | Option.none => Except.error ("Cannot read " ++ f)
    | some content =>
      match ics with
      | some (n :: rest) =>
        match getIcons content (n :: rest) with
        | Option.none => Except.error ("Cannot find required icons in " ++ f)
        | some filtered => Except.ok filtered
      | _ => Except.ok content

/-- The loop over sources.json: items are loaded in order, results
accumulate in order, and the first thrown error aborts the whole loop. -/
def loadJSONSources (fs : String → Option IconSetJSON) :
    List JSONSource → Except String (List IconSetJSON)
  | [] => Except.ok []
  | item :: rest =>
    match loadJSONItem fs item with
    | Except.error e => Except.error e
    | Except.ok set =>
      match loadJSONSources fs rest with
      | Except.error e => Except.error e
      | Except.ok sets => Except.ok (set :: sets)

/-- Branch shape of getIcons phrased through list emptiness. -/
theorem getIcons_eq (data : IconSetJSON) (names : List String) :
    getIcons data names =
      (if data.icons.filter (fun p => names.contains p.1) = []
       then Option.none
       else some { pfx := data.pfx,
                   icons := data.icons.filter (fun p => names.contains p.1) }) := by
  unfold getIcons
  by_cases h : data.icons.filter (fun p => names.contains p.1) = []
  · rw [if_pos h, if_pos (List.isEmpty_iff.mpr h)]
  · rw [if_neg h, if_neg]
    intro hc
    exact h (List.isEmpty_iff.mp hc)

/-- C1: for a JSON source with a non-empty name filter, if the filter keeps
at least one icon of the parsed file then loading returns exactly the
filtered subset; if it keeps none, loading throws an error whose message
names the source file. -/
theorem jsonFilter_spec (fs : String → Option IconSetJSON) (f : String)
    (names : List String) (content : IconSetJSON)
    (hfs : fs f = some content) (hne : names ≠ []) :
    (content.icons.filter (fun p => names.contains p.1) ≠ [] →
      loadJSONItem fs (JSONSource.obj f (some names)) =
        Except.ok { pfx := content.pfx,
                    icons := content.icons.filter (fun p => names.contains p.1) }) ∧
    (content.icons.filter (fun p => names.contains p.1) = [] →
      loadJSONItem fs (JSONSource.obj f (some names)) =
        Except.error ("Cannot find required icons in " ++ f)) := by
  match names, hne with
  | n :: rest, _ =>
    constructor
    · intro hkept
      show (match fs f with
        | Option.none => Except.error ("Cannot read " ++ f)
        | some content =>
          match getIcons content (n :: rest) with
          | Option.none => Except.error ("Cannot find required icons in " ++ f)
          | some filtered => Except.ok filtered) = _
      rw [hfs]
      show (match getIcons content (n :: rest) with
        | Option.none => Except.error ("Cannot find required icons in " ++ f)
        | some filtered => Except.ok filtered) = _
      rw [getIcons_eq, if_neg hkept]
    · intro hkept
      show (match fs f with
        | Option.none => Except.error ("Cannot read " ++ f)
        | some content =>
          match getIcons content (n :: rest) with
          | Option.none => Except.error ("Cannot find required icons in " ++ f)
          | some filtered => Except.ok filtered) = _
      rw [hfs]
      show (match getIcons content (n :: rest) with
        | Option.none => Except.error ("Cannot find required icons in " ++ f)
        | some filtered => Except.ok filtered) = _
      rw [getIcons_eq, if_pos hkept]

/-- Closed instance of jsonFilter_spec at a concrete file system, showing
both branches at explicit inputs. -/
theorem jsonFilter_spec_witness :
    loadJSONItem
        (fun f => if f = "/bxl.json"
          then some { pfx := "bxl", icons := [("facebook", "b1"), ("tumblr", "b2")] }
          else Option.none)
        (JSONSource.obj "/bxl.json" (some ["facebook", "github"])) =
      Except.ok { pfx := "bxl", icons := [("facebook", "b1")] } ∧
    loadJSONItem
        (fun f => if f = "/bxl.json"
          then some { pfx := "bxl", icons := [("facebook", "b1"), ("tumblr", "b2")] }
          else Option.none)
        (JSONSource.obj "/bxl.json" (some ["github"])) =
      Except.error ("Cannot find required icons in " ++ "/bxl.json") := by
  constructor
  · rw [(jsonFilter_spec
      (fun f => if f = "/bxl.json"
        then some { pfx := "bxl", icons := [("facebook", "b1"), ("tumblr", "b2")] }
        else Option.none)
      "/bxl.json" ["facebook", "github"]
      { pfx := "bxl", icons := [("facebook", "b1"), ("tumblr", "b2")] }
      (by decide) (by decide)).1 (by decide)]
    rfl
  · rw [(jsonFilter_spec
      (fun f => if f = "/bxl.json"
        then some { pfx := "bxl", icons := [("facebook", "b1"), ("tumblr", "b2")] }
        else Option.none)
      "/bxl.json" ["github"]
      { pfx := "bxl", icons := [("facebook", "b1"), ("tumblr", "b2")] }
      (by decide) (by decide)).2 (by decide)]

/-- C9: a JSON source descriptor that specifies no name filter (a bare
filename string, or an object whose icon list is absent) pushes the parsed
icon set through entirely unchanged. -/
theorem jsonNoFilter_spec (fs : String → Option IconSetJSON) (f : String)
    (content : IconSetJSON) (hfs : fs f = some content) :
    loadJSONItem fs (JSONSource.str f) = Except.ok content ∧
    loadJSONItem fs (JSONSource.obj f Option.none) = Except.ok content := by
  constructor <;> simp [loadJSONItem, hfs]

/-- Closed instance of jsonNoFilter_spec at a concrete file system. -/
theorem jsonNoFilter_spec_witness :
    loadJSONItem (fun _ => some { pfx := "ri", icons := [("home", "h")] })
        (JSONSource.str "/ri.json") =
      Except.ok { pfx := "ri", icons := [("home", "h")] } ∧
    loadJSONItem (fun _ => some { pfx := "ri", icons := [("home", "h")] })
        (JSONSource.obj "/ri.json" Option.none) =
      Except.ok { pfx := "ri", icons := [("home", "h")] } :=
  jsonNoFilter_spec (fun _ => some { pfx := "ri", icons := [("home", "h")] })
    "/ri.json" { pfx := "ri", icons := [("home", "h")] } rfl

/-- C10: a JSON source descriptor whose icon list is present but empty is
treated as having no filter: the whole parsed set passes through unchanged
and the empty-filter error is never raised, because the filter branch
requires a non-empty icon-name list. -/
theorem jsonEmptyFilter_spec (fs : String → Option IconSetJSON) (f : String)
    (content : IconSetJSON) (hfs : fs f = some content) :
    loadJSONItem fs (JSONSource.obj f (some [])) = Except.ok content := by
  simp [loadJSONItem, hfs]

/-- Closed instance of jsonEmptyFilter_spec at a concrete file system. -/
theorem jsonEmptyFilter_spec_witness :
    loadJSONItem (fun _ => some { pfx := "ri", icons := [("home", "h")] })
        (JSONSource.obj "/ri.json" (some [])) =
      Except.ok { pfx := "ri", icons := [("home", "h")] } :=
  jsonEmptyFilter_spec (fun _ => some { pfx := "ri", icons := [("home", "h")] })
    "/ri.json" { pfx := "ri", icons := [("home", "h")] } rfl

/-- Modelled from the spec: stringToIcon of the icon-utils package is not
part of this repository; per the spec an icon reference of the given
two-part colon form resolves into the pair of its parts, and any other
shape is malformed and silently discarded. -/
def stringToIcon (s : String) : Option (String × String) :=
  match s.data.splitOn ':' with
  | [p, n] => some (String.mk p, String.mk n)
  | _ => Option.none

/-- One step of organizeIconsList: place the name under its key, creating
the key at the end when absent and appending the name only when not
already present (mirrors the prefixList lookup, creation and push). -/
def insertIcon : List (String × List String) → String → String → List (String × List String)
  | [], p, n => [(p, [n])]
  | (q, l) :: rest, p, n =>
    if q = p then (q, if n ∈ l then l else l ++ [n]) :: rest
    else (q, l) :: insertIcon rest p n

/-- The forEach loop of organizeIconsList as a left-to-right recursion
over the input reference strings. -/
def organizeAux (sorted : List (String × List String)) :
    List String → List (String × List String)
  | [] => sorted
  | icon :: rest =>
    match stringToIcon icon with
    | Option.none => organizeAux sorted rest
    | some q => organizeAux (insertIcon sorted q.1 q.2) rest

/-- organizeIconsList from the script: group icon references by their first
part, keyed in insertion order, skipping malformed references. The record
object is embedded as an association list in key-insertion order, matching
enumeration order of its string keys. -/
def organizeIconsList (icons : List String) : List (String × List String) :=
  organizeAux [] icons

/-- Value of a grouping key, with the empty list for an absent key. -/
def lookupD : List (String × List String) → String → List String
  | [], _ => []
  | (q, l) :: rest, p => if q = p then l else lookupD rest p

/-- The names written with a given first part, in input order, duplicates
included. -/
def parsedNames (p : String) : List String → List String
  | [] => []
  | s :: rest =>
    match stringToIcon s with
    | some q => if q.1 = p then q.2 :: parsedNames p rest else parsedNames p rest
    | Option.none => parsedNames p rest

/-- Append each name in turn unless already present. -/
def addAll (l : List String) : List String → List String
  | [] => l
  | n :: ns => addAll (if n ∈ l then l else l ++ [n]) ns

/-- Deduplication keeping the first occurrence of every name. -/
def firstSeenAux (seen : List String) : List String → List String
  | [] => []
  | n :: rest =>
    if n ∈ seen then firstSeenAux seen rest
    else n :: firstSeenAux (n :: seen) rest

theorem lookupD_insert_self (sorted : List (String × List String)) (p n : String) :
    lookupD (insertIcon sorted p n) p =
      (if n ∈ lookupD sorted p then lookupD sorted p else lookupD sorted p ++ [n]) := by
  induction sorted with
  | nil => simp [insertIcon, lookupD]
  | cons e rest ih =>
    obtain ⟨q, l⟩ := e
    by_cases hq : q = p
    · subst hq
      simp [insertIcon, lookupD]
    · simp [insertIcon, lookupD, hq, ih]

theorem lookupD_insert_other (sorted : List (String × List String)) (q p n : String)
    (hq : q ≠ p) : lookupD (insertIcon sorted q n) p = lookupD sorted p := by
  induction sorted with
  | nil => simp [insertIcon, lookupD, hq]
  | cons e rest ih =>
    obtain ⟨r, l⟩ := e
    by_cases hr : r = q
    · subst hr
      simp [insertIcon, lookupD, hq]
    · simp [insertIcon, lookupD, hr, ih]

theorem organizeAux_lookupD (p : String) (icons : List String) :
    ∀ sorted : List (String × List String),
      lookupD (organizeAux sorted icons) p = addAll (lookupD sorted p) (parsedNames p icons) := by
  induction icons with
  | nil => intro sorted; rfl
  | cons s rest ih =>
    intro sorted
    cases hs : stringToIcon s with
    | none =>
      simp only [organizeAux, hs, parsedNames]
      exact ih sorted
    | some q =>
      obtain ⟨qp, qn⟩ := q
      by_cases hq : qp = p
      · subst hq
        simp only [organizeAux, hs, parsedNames, if_pos rfl]
        rw [ih (insertIcon sorted qp qn), lookupD_insert_self]
        simp [addAll]
      · simp only [organizeAux, hs, parsedNames, if_neg hq]
        rw [ih (insertIcon sorted qp qn), lookupD_insert_other sorted qp p qn hq]

theorem addAll_eq_firstSeen (ns : List String) :
    ∀ l seen : List String, (∀ x, x ∈ seen ↔ x ∈ l) →
      addAll l ns = l ++ firstSeenAux seen ns := by
  induction ns with
  | nil => intro l seen _; simp [addAll, firstSeenAux]
  | cons n rest ih =>
    intro l seen h
    simp only [addAll, firstSeenAux]
    by_cases hn : n ∈ l
    · rw [if_pos hn, if_pos ((h n).mpr hn)]
      exact ih l seen h
    · rw [if_neg hn, if_neg (fun hc => hn ((h n).mp hc))]
      rw [ih (l ++ [n]) (n :: seen) ?hcompat]
      · simp
      case hcompat =>
        intro x
        simp [List.mem_append, List.mem_cons, h x, or_comm]

theorem addAll_nodup (ns : List String) :
    ∀ l : List String, l.Nodup → (addAll l ns).Nodup := by
  induction ns with
  | nil => intro l h; exact h
  | cons n rest ih =>
    intro l h
    simp only [addAll]
    by_cases hn : n ∈ l
    · rw [if_pos hn]; exact ih l h
    · rw [if_neg hn]
      exact ih _ (by simp [List.nodup_append, h, hn])

theorem addAll_sublist (ns : List String) :
    ∀ l : List String, List.Sublist (addAll l ns) (l ++ ns) := by
  induction ns with
  | nil =>
    intro l
    rw [List.append_nil]
    exact List.Sublist.refl l
  | cons n rest ih =>
    intro l
    simp only [addAll]
    by_cases hn : n ∈ l
    · rw [if_pos hn]
      exact (ih l).trans (List.Sublist.append_left (List.sublist_cons_self n rest) l)
    · rw [if_neg hn]
      have hfull := ih (l ++ [n])
      rw [List.append_assoc] at hfull
      simpa using hfull

theorem mem_addAll (ns : List String) :
    ∀ (l : List String) (a : String), a ∈ addAll l ns ↔ a ∈ l ∨ a ∈ ns := by
  induction ns with
  | nil => intro l a; simp [addAll]
  | cons n rest ih =>
    intro l a
    simp only [addAll]
    by_cases hn : n ∈ l
    · rw [if_pos hn, ih]
      simp only [List.mem_cons]
      constructor
      · rintro (h | h)
        · exact Or.inl h
        · exact Or.inr (Or.inr h)
      · rintro (h | rfl | h)
        · exact Or.inl h
        · exact Or.inl hn
        · exact Or.inr h
    · rw [if_neg hn, ih]
      simp only [List.mem_append, List.mem_cons]
      constructor
      · rintro ((h | h) | h)
        · exact Or.inl h
        · exact Or.inr (Or.inl (by simpa using h))
        · exact Or.inr (Or.inr h)
      · rintro (h | rfl | h)
        · exact Or.inl (Or.inl h)
        · exact Or.inl (Or.inr (by simp))
        · exact Or.inr h

theorem mem_filterMap_stringToIcon (icons : List String) (p n : String) :
    (p, n) ∈ icons.filterMap stringToIcon ↔ n ∈ parsedNames p icons := by
  induction icons with
  | nil => simp [parsedNames]
  | cons s rest ih =>
    cases hs : stringToIcon s with
    | none => simp [List.filterMap_cons, hs, parsedNames, ih]
    | some q =>
      obtain ⟨qp, qn⟩ := q
      by_cases hq : qp = p
      · subst hq
        simp [List.filterMap_cons, hs, parsedNames, ih, Prod.ext_iff]
      · simp only [List.filterMap_cons, hs, parsedNames, if_neg hq, List.mem_cons, ih,
          Prod.mk.injEq]
        constructor
        · rintro (⟨h1, h2⟩ | h)
          · exact absurd h1.symm hq
          · exact h
        · intro h
          exact Or.inr h

/-- C4: grouping valid references puts every name under exactly the first
part it was written with, with no duplicate names per key, names in
first-seen input order. -/
theorem organizeIconsList_spec (icons : List String)
    (hvalid : ∀ s ∈ icons, (stringToIcon s).isSome = true) :
    ∀ p : String,
      (∀ n : String,
        n ∈ lookupD (organizeIconsList icons) p ↔ (p, n) ∈ icons.filterMap stringToIcon) ∧
      (lookupD (organizeIconsList icons) p).Nodup ∧
      List.Sublist (lookupD (organizeIconsList icons) p) (parsedNames p icons) ∧
      lookupD (organizeIconsList icons) p = firstSeenAux [] (parsedNames p icons) := by
  intro p
  have hmain : lookupD (organizeIconsList icons) p = addAll [] (parsedNames p icons) :=
    organizeAux_lookupD p icons []
  refine ⟨?_, ?_, ?_, ?_⟩
  · intro n
    rw [hmain, mem_addAll, mem_filterMap_stringToIcon]
    simp
  · rw [hmain]; exact addAll_nodup _ [] List.nodup_nil
  · rw [hmain]; simpa using addAll_sublist (parsedNames p icons) []
  · rw [hmain]; exact addAll_eq_firstSeen _ [] [] (fun x => Iff.rfl)

/-- Closed instance of organizeIconsList_spec at a concrete reference
list, with the grouped result evaluated. -/
theorem organizeIconsList_spec_witness :
    lookupD (organizeIconsList ["mdi:home", "mdi:account", "oct:book", "mdi:home"]) "mdi" =
      firstSeenAux [] (parsedNames "mdi" ["mdi:home", "mdi:account", "oct:book", "mdi:home"]) ∧
    lookupD (organizeIconsList ["mdi:home", "mdi:account", "oct:book", "mdi:home"]) "mdi" =
      ["home", "account"] := by
  constructor
  · exact ((organizeIconsList_spec ["mdi:home", "mdi:account", "oct:book", "mdi:home"]
      (by decide)) "mdi").2.2.2
  · decide

theorem organizeAux_filter_malformed (icons : List String) :
    ∀ sorted : List (String × List String),
      organizeAux sorted icons =
        organizeAux sorted (icons.filter (fun s => (stringToIcon s).isSome)) := by
  induction icons with
  | nil => intro sorted; rfl
  | cons s rest ih =>
    intro sorted
    cases hs : stringToIcon s with
    | none => simp [organizeAux, List.filter_cons, hs, ih]
    | some q => simp [organizeAux, List.filter_cons, hs, ih]

/-- C5: the grouping step ignores malformed references and never throws:
it is a total function whose output is identical to grouping the same list
with the malformed entries removed. -/
theorem organizeIconsList_skips_malformed (icons : List String) :
    organizeIconsList icons =
      organizeIconsList (icons.filter (fun s => (stringToIcon s).isSome)) :=
  organizeAux_filter_malformed icons []

/-- A parsed color value as handed to the recoloring callback: the keyword
for no paint, the fully transparent color, or an ordinary color value. -/
inductive ParsedColor where
  | noPaint
  | transparent
  | value (s : String)
  deriving DecidableEq, Repr

/-- Modelled from the spec: isEmptyColor of the icon-tools dependency is
not part of this repository; per the spec a color is empty exactly when it
is the no-paint keyword or transparent. -/
def isEmptyColor (c : ParsedColor) : Bool :=
  match c with
  | ParsedColor.noPaint => true
  | ParsedColor.transparent => true
  | ParsedColor.value _ => false

/-- The recoloring callback passed to parseColors in monotone mode,
embedded from the script: keep the original color string when the color
failed to parse or is empty, and otherwise return the current-color
token. -/
def monotoneCallback (attr : String) (colorStr : String) (color : Option ParsedColor) :
    String :=
  match color with
  | Option.none => colorStr
  | some c => if isEmptyColor c then colorStr else "currentColor"

/-- One color attribute of an SVG: the attribute name, its literal color
string, and the parse of that string (nothing when unparseable). -/
structure ColorAttr where
  attr : String
  colorStr : String
  parsed : Option ParsedColor
  deriving DecidableEq, Repr

/-- Modelled from the spec: parseColors of the icon-tools dependency is
not part of this repository; per the spec it visits every color attribute
of the icon and replaces its value with the callback's result. -/
def parseColors (cb : String → String → Option ParsedColor → String)
    (attrs : List ColorAttr) : List ColorAttr :=
  attrs.map (fun a => { a with colorStr := cb a.attr a.colorStr a.parsed })

/-- The recoloring the spec describes, written from its words: a non-empty
color value becomes the current-color token, while an empty, no-paint or
unparseable color is left untouched. -/
def specRecolor (a : ColorAttr) : ColorAttr :=
  match a.parsed with
  | Option.none => a
  | some c => if isEmptyColor c then a else { a with colorStr := "currentColor" }

/-- C3: in monotone mode every color attribute with a non-empty parsed
color is replaced by the current-color token, and every other color
attribute is left unchanged: the callback the script installs computes
exactly the recoloring the spec describes. -/
theorem parseColors_monotone_spec (attrs : List ColorAttr) :
    parseColors monotoneCallback attrs = attrs.map specRecolor := by
  induction attrs with
  | nil => rfl
  | cons a rest ih =>
    simp only [parseColors, List.map_cons] at ih ⊢
    rw [ih]
    obtain ⟨nm, cs, pr⟩ := a
    cases pr with
    | none => simp [monotoneCallback, specRecolor]
    | some c =>
      by_cases hc : isEmptyColor c = true
      · simp [monotoneCallback, specRecolor, hc]
      · simp [monotoneCallback, specRecolor, hc]

/-- Kind of an entry of an imported icon set, as reported to the forEach
callback: a real icon, a variant, or an alias name. -/
inductive EntryType where
  | icon
  | variant
  | aliasName
  deriving DecidableEq, Repr

/-- State of an imported icon set during the per-icon loop: entries in
order, each a name with its kind and current body data. -/
abbrev SVGSet := List (String × EntryType × String)

/-- Modelled from the spec: removal of a named entry from the icon set
(the remove method of the icon-tools set object). -/
def removeIcon : SVGSet → String → SVGSet
  | [], _ => []
  | e :: rest, n => if e.1 = n then removeIcon rest n else e :: removeIcon rest n

/-- Modelled from the spec: writing a processed SVG back into the set
under its name (the fromSVG method of the icon-tools set object). -/
def fromSVG : SVGSet → String → String → SVGSet
  | [], _, _ => []
  | e :: rest, n, svg =>
    (if e.1 = n then (e.1, e.2.1, svg) else e) :: fromSVG rest n svg

/-- First entry stored under a name. -/
def findEntry : SVGSet → String → Option (EntryType × String)
  | [], _ => Option.none
  | e :: rest, n => if e.1 = n then some e.2 else findEntry rest n

/-- Modelled from the spec: the toSVG method builds a parsed SVG instance
from the stored body of the named entry, or nothing when the body cannot
be parsed; the parser itself is the dependency's and is a parameter. -/
def toSVG (parse : String → Option String) (set : SVGSet) (name : String) : Option String :=
  match findEntry set name with
  | Option.none => Option.none
  | some td => parse td.2

/-- The per-icon callback of the script, embedded: skip non-icon entries,
remove the icon when no SVG can be parsed, remove it when the combined
cleanup, recoloring and optimization step throws, and otherwise store the
processed SVG back under the icon name. -/
def forEachCallback (parse : String → Option String) (proc : String → Except String String)
    (set : SVGSet) (name : String) (t : EntryType) : SVGSet :=
  if t ≠ EntryType.icon then set
  else
    match toSVG parse set name with
    | Option.none => removeIcon set name
    | some svg =>
      match proc svg with
      | Except.error _ => removeIcon set name
      | Except.ok svg2 => fromSVG set name svg2

/-- The iteration of the callback over a fixed worklist of entry names. -/
def runForEachAux (parse : String → Option String) (proc : String → Except String String) :
    SVGSet → List (String × EntryType) → SVGSet
  | set, [] => set
  | set, nt :: todo => runForEachAux parse proc (forEachCallback parse proc set nt.1 nt.2) todo

/-- The forEach call of the script: the callback runs once for every entry
present when the iteration starts, sequentially, mutating the set. -/
def runForEach (parse : String → Option String) (proc : String → Except String String)
    (set0 : SVGSet) : SVGSet :=
  runForEachAux parse proc set0 (set0.map (fun e => (e.1, e.2.1)))

/-- Outcome of the loop on a single entry: non-icon entries survive
untouched, icons that fail to parse or whose processing throws disappear,
and successfully processed icons carry their processed body. -/
def stepEntry (parse : String → Option String) (proc : String → Except String String)
    (e : String × EntryType × String) : Option (String × EntryType × String) :=
  if e.2.1 ≠ EntryType.icon then some e
  else
    match parse e.2.2 with
    | Option.none => Option.none
    | some svg =>
      match proc svg with
      | Except.error _ => Option.none
      | Except.ok svg2 => some (e.1, e.2.1, svg2)

theorem findEntry_append_not (n : String) (done : SVGSet)
    (h : ∀ x ∈ done, x.1 ≠ n) (tail : SVGSet) :
    findEntry (done ++ tail) n = findEntry tail n := by
  induction done with
  | nil => rfl
  | cons e rest ih =>
    have he : e.1 ≠ n := h e (List.mem_cons_self e rest)
    rw [List.cons_append]
    show (if e.1 = n then some e.2 else findEntry (rest ++ tail) n) = findEntry tail n
    rw [if_neg he]
    exact ih (fun x hx => h x (List.mem_cons_of_mem e hx))

theorem removeIcon_notmem (n : String) (l : SVGSet) (h : ∀ x ∈ l, x.1 ≠ n) :
    removeIcon l n = l := by
  induction l with
  | nil => rfl
  | cons e rest ih =>
    have he : e.1 ≠ n := h e (List.mem_cons_self e rest)
    show (if e.1 = n then removeIcon rest n else e :: removeIcon rest n) = e :: rest
    rw [if_neg he, ih (fun x hx => h x (List.mem_cons_of_mem e hx))]

theorem removeIcon_append (n : String) (done tail : SVGSet) :
    removeIcon (done ++ tail) n = removeIcon done n ++ removeIcon tail n := by
  induction done with
  | nil => rfl
  | cons e rest ih =>
    rw [List.cons_append]
    show (if e.1 = n then removeIcon (rest ++ tail) n else e :: removeIcon (rest ++ tail) n) = _
    by_cases he : e.1 = n
    · rw [if_pos he, ih]
      show _ = (if e.1 = n then removeIcon rest n else e :: removeIcon rest n) ++ _
      rw [if_pos he]
    · rw [if_neg he, ih]
      show _ = (if e.1 = n then removeIcon rest n else e :: removeIcon rest n) ++ _
      rw [if_neg he, List.cons_append]

theorem fromSVG_notmem (n svg : String) (l : SVGSet) (h : ∀ x ∈ l, x.1 ≠ n) :
    fromSVG l n svg = l := by
  induction l with
  | nil => rfl
  | cons e rest ih =>
    have he : e.1 ≠ n := h e (List.mem_cons_self e rest)
    show (if e.1 = n then (e.1, e.2.1, svg) else e) :: fromSVG rest n svg = e :: rest
    rw [if_neg he, ih (fun x hx => h x (List.mem_cons_of_mem e hx))]

theorem fromSVG_append (n svg : String) (done tail : SVGSet) :
    fromSVG (done ++ tail) n svg = fromSVG done n svg ++ fromSVG tail n svg := by
  induction done with
  | nil => rfl
  | cons e rest ih =>
    rw [List.cons_append]
    show ((if e.1 = n then (e.1, e.2.1, svg) else e) :: fromSVG (rest ++ tail) n svg) = _
    rw [ih]
    rfl

theorem runForEachAux_spec (parse : String → Option String)
    (proc : String → Except String String) :
    ∀ (todo : List (String × EntryType)) (done pending : SVGSet),
      pending.map (fun e => (e.1, e.2.1)) = todo →
      (∀ x ∈ done, ∀ y ∈ todo, x.1 ≠ y.1) →
      (todo.map Prod.fst).Nodup →
      runForEachAux parse proc (done ++ pending) todo =
        done ++ pending.filterMap (stepEntry parse proc) := by
  intro todo
  induction todo with
  | nil =>
    intro done pending hmap _ _
    have hp : pending = [] := List.map_eq_nil_iff.mp hmap
    subst hp
    rfl
  | cons nt todoRest ih =>
    intro done pending hmap hdisj hnodup
    cases pending with
    | nil => exact List.noConfusion hmap
    | cons e pendRest =>
      obtain ⟨en, et, eb⟩ := e
      rw [List.map_cons] at hmap
      injection hmap with hnt hrest
      subst hnt
      rw [List.map_cons, List.nodup_cons] at hnodup
      have henNot : en ∉ todoRest.map Prod.fst := hnodup.1
      have hTodoNodup : (todoRest.map Prod.fst).Nodup := hnodup.2
      have hdoneN : ∀ x ∈ done, x.1 ≠ en :=
        fun x hx => hdisj x hx (en, et) (List.mem_cons_self _ _)
      have hpendN : ∀ y ∈ pendRest, y.1 ≠ en := by
        intro y hy hcon
        apply henNot
        have h1 : ((y.1, y.2.1) : String × EntryType) ∈ todoRest := by
          rw [← hrest]
          exact List.mem_map_of_mem (fun e => (e.1, e.2.1)) hy
        have h2 : y.1 ∈ todoRest.map Prod.fst := List.mem_map_of_mem Prod.fst h1
        rw [hcon] at h2
        exact h2
      have hdisjRest : ∀ x ∈ done, ∀ y ∈ todoRest, x.1 ≠ y.1 :=
        fun x hx y hy => hdisj x hx y (List.mem_cons_of_mem _ hy)
      have henTodoRest : ∀ y ∈ todoRest, en ≠ (y : String × EntryType).1 := by
        intro y hy hcon
        exact henNot (hcon ▸ List.mem_map_of_mem Prod.fst hy)
      show runForEachAux parse proc
          (forEachCallback parse proc (done ++ (en, et, eb) :: pendRest) en et) todoRest = _
      by_cases ht : et = EntryType.icon
      · subst ht
        have hfind : findEntry (done ++ (en, EntryType.icon, eb) :: pendRest) en =
            some (EntryType.icon, eb) := by
          rw [findEntry_append_not en done hdoneN]
          show (if en = en then some ((EntryType.icon, eb) : EntryType × String)
                else findEntry pendRest en) = _
          rw [if_pos rfl]
        have htosvg : toSVG parse (done ++ (en, EntryType.icon, eb) :: pendRest) en =
            parse eb := by
          unfold toSVG
          rw [hfind]
        have hremove : removeIcon (done ++ (en, EntryType.icon, eb) :: pendRest) en =
            done ++ pendRest := by
          rw [removeIcon_append, removeIcon_notmem en done hdoneN]
          show done ++ (if en = en then removeIcon pendRest en
                        else (en, EntryType.icon, eb) :: removeIcon pendRest en) = _
          rw [if_pos rfl, removeIcon_notmem en pendRest hpendN]
        have hfrom : ∀ svg2 : String,
            fromSVG (done ++ (en, EntryType.icon, eb) :: pendRest) en svg2 =
              done ++ (en, EntryType.icon, svg2) :: pendRest := by
          intro svg2
          rw [fromSVG_append, fromSVG_notmem en svg2 done hdoneN]
          show done ++ ((if en = en then (en, EntryType.icon, svg2)
                         else (en, EntryType.icon, eb)) :: fromSVG pendRest en svg2) = _
          rw [if_pos rfl, fromSVG_notmem en svg2 pendRest hpendN]
        cases hpar : parse eb with
        | none =>
          have hcb : forEachCallback parse proc
              (done ++ (en, EntryType.icon, eb) :: pendRest) en EntryType.icon =
                done ++ pendRest := by
            unfold forEachCallback
            rw [if_neg (by simp), htosvg, hpar, hremove]
          have hstepe : stepEntry parse proc (en, EntryType.icon, eb) = Option.none := by
            unfold stepEntry
            rw [if_neg (by simp), hpar]
          rw [hcb, ih done pendRest hrest hdisjRest hTodoNodup, List.filterMap_cons, hstepe]
        | some svg =>
          cases hproc : proc svg with
          | error msg =>
            have hcb : forEachCallback parse proc
                (done ++ (en, EntryType.icon, eb) :: pendRest) en EntryType.icon =
                  done ++ pendRest := by
              unfold forEachCallback
              rw [if_neg (by simp), htosvg, hpar]
              show (match proc svg with
                | Except.error _ => removeIcon (done ++ (en, EntryType.icon, eb) :: pendRest) en
                | Except.ok svg2 =>
                  fromSVG (done ++ (en, EntryType.icon, eb) :: pendRest) en svg2) = _
              rw [hproc, hremove]
            have hstepe : stepEntry parse proc (en, EntryType.icon, eb) = Option.none := by
              unfold stepEntry
              rw [if_neg (by simp), hpar]
              show (match proc svg with
                | Except.error _ => Option.none
                | Except.ok svg2 => some ((en : String), EntryType.icon, svg2)) = _
              rw [hproc]
            rw [hcb, ih done pendRest hrest hdisjRest hTodoNodup, List.filterMap_cons, hstepe]
          | ok svg2 =>
            have hcb : forEachCallback parse proc
                (done ++ (en, EntryType.icon, eb) :: pendRest) en EntryType.icon =
                  done ++ (en, EntryType.icon, svg2) :: pendRest := by
              unfold forEachCallback
              rw [if_neg (by simp), htosvg, hpar]
              show (match proc svg with
                | Except.error _ => removeIcon (done ++ (en, EntryType.icon, eb) :: pendRest) en
                | Except.ok s2 =>
                  fromSVG (done ++ (en, EntryType.icon, eb) :: pendRest) en s2) = _
              rw [hproc]
              show fromSVG (done ++ (en, EntryType.icon, eb) :: pendRest) en svg2 = _
              rw [hfrom svg2]
            have hstepe : stepEntry parse proc (en, EntryType.icon, eb) =
                some (en, EntryType.icon, svg2) := by
              unfold stepEntry
              rw [if_neg (by simp), hpar]
              show (match proc svg with
                | Except.error _ => Option.none
                | Except.ok s2 => some ((en : String), EntryType.icon, s2)) = _
              rw [hproc]
            rw [hcb]
            have hassoc : done ++ (en, EntryType.icon, svg2) :: pendRest =
                (done ++ [(en, EntryType.icon, svg2)]) ++ pendRest := by
              simp
            rw [hassoc, ih (done ++ [(en, EntryType.icon, svg2)]) pendRest hrest ?disjOk
                hTodoNodup, List.filterMap_cons, hstepe]
            · simp
            case disjOk =>
              intro x hx y hy
              rcases List.mem_append.mp hx with hxd | hxe
              · exact hdisjRest x hxd y hy
              · have hxval : x = (en, EntryType.icon, svg2) := by simpa using hxe
                subst hxval
                exact henTodoRest y hy
      · have hcb : forEachCallback parse proc
            (done ++ (en, et, eb) :: pendRest) en et =
              done ++ (en, et, eb) :: pendRest := by
          unfold forEachCallback
          rw [if_pos ht]
        have hstepe : stepEntry parse proc (en, et, eb) = some (en, et, eb) := by
          unfold stepEntry
          rw [if_pos ht]
        rw [hcb]
        have hassoc : done ++ (en, et, eb) :: pendRest =
            (done ++ [(en, et, eb)]) ++ pendRest := by
          simp
        rw [hassoc, ih (done ++ [(en, et, eb)]) pendRest hrest ?disjSkip hTodoNodup,
          List.filterMap_cons, hstepe]
        · simp
        case disjSkip =>
          intro x hx y hy
          rcases List.mem_append.mp hx with hxd | hxe
          · exact hdisjRest x hxd y hy
          · have hxval : x = (en, et, eb) := by simpa using hxe
            subst hxval
            exact henTodoRest y hy

/-- The whole per-directory loop, for a set whose entry names are unique
(the stated icon-set invariant): the final set is exactly the entrywise
outcome, keeping non-icon entries, dropping failed icons, and storing the
processed body for successful icons. -/
theorem runForEach_filterMap (parse : String → Option String)
    (proc : String → Except String String) (set0 : SVGSet)
    (hnd : (set0.map (fun e => e.1)).Nodup) :
    runForEach parse proc set0 = set0.filterMap (stepEntry parse proc) := by
  have hmapfst : (set0.map (fun e => (e.1, e.2.1))).map Prod.fst =
      set0.map (fun e => e.1) := by
    rw [List.map_map]
    rfl
  have h := runForEachAux_spec parse proc (set0.map (fun e => (e.1, e.2.1))) [] set0 rfl
    (fun x hx => absurd hx (List.not_mem_nil x)) (hmapfst ▸ hnd)
  simpa [runForEach] using h

/-- Configuration of one custom SVG directory source, as in the script. -/
structure BundleScriptCustomSVGConfig where
  dir : String
  monotone : Bool
  pfx : String
  deriving DecidableEq, Repr

/-- The declarative bundle configuration of the script: SVG directory
sources, bare icon references, and JSON sources; an absent optional list
is embedded as the empty list, which the script treats identically. -/
structure BundleScriptConfig where
  svg : List BundleScriptCustomSVGConfig
  icons : List String
  json : List JSONSource

/-- The external capabilities the script calls, gathered as parameters:
package path resolution (the one point where the two variants differ),
file reading with JSON parsing, directory import, the SVG parser, and the
cleanup, recoloring and optimization passes of the icon-tools dependency. -/
structure Deps where
  resolve : String → String
  fs : String → Option IconSetJSON
  importDir : String → String → SVGSet
  parse : String → Option String
  cleanup : String → Except String String
  applyColors : (String → String → Option ParsedColor → String) → String →
    Except String String
  svgo : String → Except String String

/-- The try block of the per-icon callback: cleanup, then in monotone mode
the recoloring pass with the callback the script installs, then the
optimizer; the first thrown error aborts this icon's processing. -/
def processSVG (d : Deps) (monotone : Bool) (svg : String) : Except String String :=
  match d.cleanup svg with
  | Except.error e => Except.error e
  | Except.ok s1 =>
    match (if monotone then d.applyColors monotoneCallback s1 else Except.ok s1) with
    | Except.error e => Except.error e
    | Except.ok s2 => d.svgo s2

/-- Modelled from the spec: exporting an icon set produces its prefix with
the mapping of surviving icon entries, in order; non-icon entries are not
part of the icons mapping. -/
def exportSVGSet (pfx : String) (set : SVGSet) : IconSetJSON :=
  { pfx := pfx,
    icons := set.filterMap (fun e =>
      if e.2.1 = EntryType.icon then some (e.1, e.2.2) else Option.none) }

/-- The SVG-sources stage of the script: import each declared directory,
run the per-icon loop, export, in declaration order. -/
def collectSVG (d : Deps) (cfg : BundleScriptConfig) : List IconSetJSON :=
  cfg.svg.map (fun s =>
    exportSVGSet s.pfx
      (runForEach d.parse (processSVG d s.monotone) (d.importDir s.dir s.pfx)))

/-- The five bxl icon names the script requests. -/
def bxlIcons : List String := ["facebook", "twitter", "github", "google", "linkedin"]

/-- JSON sources after the dynamic pushes of the script: the two resolved
package files are appended to the configured list, then the bare icon
references, when any, are grouped and appended as filtered synthetic
sources. -/
def resolvedJSONSources (d : Deps) (cfg : BundleScriptConfig) : List JSONSource :=
  let json1 := cfg.json ++
    [JSONSource.str (d.resolve "@iconify-json/ri/icons.json"),
     JSONSource.obj (d.resolve "@iconify-json/bxl/icons.json") (some bxlIcons)]
  if cfg.icons.length > 0 then
    json1 ++ (organizeIconsList cfg.icons).map (fun pl =>
      JSONSource.obj (d.resolve ("@iconify/json/json/" ++ pl.1 ++ ".json")) (some pl.2))
  else json1

/-- The JSON loading stage of the script. -/
def collectJSON (d : Deps) (cfg : BundleScriptConfig) : Except String (List IconSetJSON) :=
  loadJSONSources d.fs (resolvedJSONSources d cfg)

/-- CSS selector for one icon under the default selector template of the
script: dot, the set prefix, a dash, and the icon name. -/
def selectorFor (pfx name : String) : String := "." ++ pfx ++ "-" ++ name

/-- The join of a list of strings with the newline separator. -/
def joinNL : List String → String
  | [] => ""
  | [a] => a
  | a :: b :: rest => a ++ "\n" ++ joinNL (b :: rest)

/-- Modelled from the spec: getIconsCSS of the icon-utils package is not
part of this repository; per the spec it generates one CSS block with a
rule per listed icon whose selector instantiates the selector template
with the set prefix and the icon name. -/
def getIconsCSS (set : IconSetJSON) (names : List String) : String :=
  joinNL (names.map (fun n => selectorFor set.pfx n))

/-- The CSS emission expression of the script: one block per accumulated
set over the keys of its icons mapping, joined by one newline. -/
def emitCSS (sets : List IconSetJSON) : String :=
  joinNL (sets.map (fun s => getIconsCSS s (s.icons.map Prod.fst)))

/-- The async main of build-icons.ts: resolve and push the JSON sources,
load them (a throw anywhere aborts the run before any write), run the SVG
stage, emit the CSS and perform the single write to the target path. The
result pairs the run outcome with the list of file writes performed. -/
def buildIconsMain (d : Deps) (cfg : BundleScriptConfig) (target : String) :
    Except String Unit × List (String × String) :=
  match collectJSON d cfg with
  | Except.error e => (Except.error e, [])
  | Except.ok jsonSets =>
    (Except.ok (), [(target, emitCSS (jsonSets ++ collectSVG d cfg))])

/-- Concrete capabilities used by the closed witness evaluations. -/
def wDeps : Deps :=
  { resolve := fun s => s,
    fs := fun _ => some { pfx := "bxl", icons := [("facebook", "b")] },
    importDir := fun _ _ => [],
    parse := fun _ => Option.none,
    cleanup := fun s => Except.ok s,
    applyColors := fun _ s => Except.ok s,
    svgo := fun s => Except.ok s }

/-- C7: the run is all-or-nothing with respect to the output file: either
a fatal error is thrown and the write list is empty, or every fatal-tier
step succeeded and exactly one write is performed. -/
theorem run_atomicity (d : Deps) (cfg : BundleScriptConfig) (target : String) :
    ((∃ e, (buildIconsMain d cfg target).1 = Except.error e) ∧
      (buildIconsMain d cfg target).2 = []) ∨
    ((buildIconsMain d cfg target).1 = Except.ok () ∧
      (buildIconsMain d cfg target).2.length = 1) := by
  unfold buildIconsMain
  cases hc : collectJSON d cfg with
  | error e => exact Or.inl ⟨⟨e, rfl⟩, rfl⟩
  | ok sets => exact Or.inr ⟨rfl, rfl⟩

/-- C6: CSS emission produces one block per accumulated set, blocks in
accumulation order joined by exactly one newline, the default selector
template instantiating to dot, prefix, dash, name, and a successful run
writes the whole emission to the target path in one single write. -/
theorem cssEmission_spec (A : IconSetJSON) (rest : List IconSetJSON) (hrest : rest ≠ []) :
    emitCSS (A :: rest) =
      getIconsCSS A (A.icons.map Prod.fst) ++ "\n" ++ emitCSS rest ∧
    selectorFor "ri" "home" = ".ri-home" ∧
    getIconsCSS { pfx := "ri", icons := [("home", "b")] }
        ([(("home" : String), ("b" : String))].map Prod.fst) = ".ri-home" ∧
    (∀ (d : Deps) (cfg : BundleScriptConfig) (target : String) (sets : List IconSetJSON),
      collectJSON d cfg = Except.ok sets →
      (buildIconsMain d cfg target).2 = [(target, emitCSS (sets ++ collectSVG d cfg))]) := by
  refine ⟨?_, rfl, rfl, ?_⟩
  · cases rest with
    | nil => exact absurd rfl hrest
    | cons B rest2 => rfl
  · intro d cfg target sets hok
    unfold buildIconsMain
    rw [hok]

/-- Closed instance of cssEmission_spec at concrete icon sets and the
concrete capabilities, with the emitted CSS evaluated. -/
theorem cssEmission_spec_witness :
    emitCSS [{ pfx := "a", icons := [("x", "b")] }, { pfx := "c", icons := [("y", "b2")] }] =
      getIconsCSS { pfx := "a", icons := [("x", "b")] } ([(("x" : String), ("b" : String))].map Prod.fst) ++
        "\n" ++ emitCSS [{ pfx := "c", icons := [("y", "b2")] }] ∧
    emitCSS [{ pfx := "a", icons := [("x", "b")] }, { pfx := "c", icons := [("y", "b2")] }] =
      ".a-x\n.c-y" ∧
    selectorFor "ri" "home" = ".ri-home" ∧
    (buildIconsMain wDeps { svg := [], icons := [], json := [] } "icons.css").2 =
      [("icons.css",
        emitCSS ([{ pfx := "bxl", icons := [("facebook", "b")] },
                  { pfx := "bxl", icons := [("facebook", "b")] }] ++
          collectSVG wDeps { svg := [], icons := [], json := [] }))] := by
  have h := cssEmission_spec { pfx := "a", icons := [("x", "b")] }
    [{ pfx := "c", icons := [("y", "b2")] }] (by decide)
  exact ⟨h.1, rfl, h.2.1,
    h.2.2.2 wDeps { svg := [], icons := [], json := [] } "icons.css"
      [{ pfx := "bxl", icons := [("facebook", "b")] },
       { pfx := "bxl", icons := [("facebook", "b")] }] rfl⟩

namespace P0

/-- The recoloring callback of the second variant (src/unnamed/part_000),
textually the same lambda as in build-icons.ts. -/
def monotoneCallback (attr : String) (colorStr : String) (color : Option ParsedColor) :
    String :=
  match color with
  | Option.none => colorStr
  | some c => if isEmptyColor c then colorStr else "currentColor"

/-- insertIcon of the second variant. -/
def insertIcon : List (String × List String) → String → String → List (String × List String)
  | [], p, n => [(p, [n])]
  | (q, l) :: rest, p, n =>
    if q = p then (q, if n ∈ l then l else l ++ [n]) :: rest
    else (q, l) :: insertIcon rest p n

/-- The forEach loop of organizeIconsList of the second variant. -/
def organizeAux (sorted : List (String × List String)) :
    List String → List (String × List String)
  | [] => sorted
  | icon :: rest =>
    match stringToIcon icon with
    | Option.none => organizeAux sorted rest
    | some q => organizeAux (insertIcon sorted q.1 q.2) rest

/-- organizeIconsList of the second variant. -/
def organizeIconsList (icons : List String) : List (String × List String) :=
  organizeAux [] icons

/-- Loading of one JSON source descriptor in the second variant. -/
def loadJSONItem (fs : String → Option IconSetJSON) (item : JSONSource) :
    Except String IconSetJSON :=
  match item with
  | JSONSource.str f =>
    match fs f with
    | Option.none => Except.error ("Cannot read " ++ f)
    | some content => Except.ok content
  | JSONSource.obj f ics =>
    match fs f with
    | Option.none => Except.error ("Cannot read " ++ f)
    | some content =>
      match ics with
      | some (n :: rest) =>
        match getIcons content (n :: rest) with
        | Option.none => Except.error ("Cannot find required icons in " ++ f)
        | some filtered => Except.ok filtered
      | _ => Except.ok content

/-- The loop over sources.json in the second variant. -/
def loadJSONSources (fs : String → Option IconSetJSON) :
    List JSONSource → Except String (List IconSetJSON)
  | [] => Except.ok []
  | item :: rest =>
    match loadJSONItem fs item with
    | Except.error e => Except.error e
    | Except.ok set =>
      match loadJSONSources fs rest with
      | Except.error e => Except.error e
      | Except.ok sets => Except.ok (set :: sets)

/-- The per-icon callback of the second variant. -/
def forEachCallback (parse : String → Option String) (proc : String → Except String String)
    (set : SVGSet) (name : String) (t : EntryType) : SVGSet :=
  if t ≠ EntryType.icon then set
  else
    match toSVG parse set name with
    | Option.none => removeIcon set name
    | some svg =>
      match proc svg with
      | Except.error _ => removeIcon set name
      | Except.ok svg2 => fromSVG set name svg2

/-- Iteration of the callback of the second variant. -/
def runForEachAux (parse : String → Option String) (proc : String → Except String String) :
    SVGSet → List (String × EntryType) → SVGSet
  | set, [] => set
  | set, nt :: todo => runForEachAux parse proc (forEachCallback parse proc set nt.1 nt.2) todo

/-- The forEach call of the second variant. -/
def runForEach (parse : String → Option String) (proc : String → Except String String)
    (set0 : SVGSet) : SVGSet :=
  runForEachAux parse proc set0 (set0.map (fun e => (e.1, e.2.1)))

/-- The try block of the per-icon callback of the second variant. -/
def processSVG (d : Deps) (monotone : Bool) (svg : String) : Except String String :=
  match d.cleanup svg with
  | Except.error e => Except.error e
  | Except.ok s1 =>
    match (if monotone then d.applyColors monotoneCallback s1 else Except.ok s1) with
    | Except.error e => Except.error e
    | Except.ok s2 => d.svgo s2

/-- The SVG-sources stage of the second variant. -/
def collectSVG (d : Deps) (cfg : BundleScriptConfig) : List IconSetJSON :=
  cfg.svg.map (fun s =>
    exportSVGSet s.pfx
      (runForEach d.parse (processSVG d s.monotone) (d.importDir s.dir s.pfx)))

/-- The five bxl icon names requested by the second variant. -/
def bxlIcons : List String := ["facebook", "twitter", "github", "google", "linkedin"]

/-- JSON sources after the dynamic pushes of the second variant, whose
paths come from its own (synchronous) resolution, passed in resolved. -/
def resolvedJSONSources (d : Deps) (cfg : BundleScriptConfig) : List JSONSource :=
  let json1 := cfg.json ++
    [JSONSource.str (d.resolve "@iconify-json/ri/icons.json"),
     JSONSource.obj (d.resolve "@iconify-json/bxl/icons.json") (some bxlIcons)]
  if cfg.icons.length > 0 then
    json1 ++ (organizeIconsList cfg.icons).map (fun pl =>
      JSONSource.obj (d.resolve ("@iconify/json/json/" ++ pl.1 ++ ".json")) (some pl.2))
  else json1

/-- The JSON loading stage of the second variant. -/
def collectJSON (d : Deps) (cfg : BundleScriptConfig) : Except String (List IconSetJSON) :=
  loadJSONSources d.fs (resolvedJSONSources d cfg)

/-- The CSS emission expression of the second variant. -/
def emitCSS (sets : List IconSetJSON) : String :=
  joinNL (sets.map (fun s => getIconsCSS s (s.icons.map Prod.fst)))

/-- The async main of the second variant. -/
def main (d : Deps) (cfg : BundleScriptConfig) (target : String) :
    Except String Unit × List (String × String) :=
  match collectJSON d cfg with
  | Except.error e => (Except.error e, [])
  | Except.ok jsonSets =>
    (Except.ok (), [(target, emitCSS (jsonSets ++ collectSVG d cfg))])

end P0

theorem p0_monotoneCallback : P0.monotoneCallback = monotoneCallback := by
  funext a cs col
  cases col <;> rfl

theorem p0_insertIcon (p n : String) :
    ∀ sorted, P0.insertIcon sorted p n = insertIcon sorted p n := by
  intro sorted
  induction sorted with
  | nil => rfl
  | cons e rest ih =>
    obtain ⟨q, l⟩ := e
    show (if q = p then (q, if n ∈ l then l else l ++ [n]) :: rest
          else (q, l) :: P0.insertIcon rest p n) = _
    rw [ih]
    rfl

theorem p0_organizeAux :
    ∀ (icons : List String) (sorted : List (String × List String)),
      P0.organizeAux sorted icons = organizeAux sorted icons := by
  intro icons
  induction icons with
  | nil => intro sorted; rfl
  | cons s rest ih =>
    intro sorted
    cases hs : stringToIcon s with
    | none =>
      show P0.organizeAux sorted (s :: rest) = organizeAux sorted (s :: rest)
      simp only [P0.organizeAux, organizeAux, hs]
      exact ih sorted
    | some q =>
      simp only [P0.organizeAux, organizeAux, hs, p0_insertIcon]
      exact ih _

theorem p0_organizeIconsList : P0.organizeIconsList = organizeIconsList := by
  funext icons
  exact p0_organizeAux icons []

theorem p0_loadJSONItem (fs : String → Option IconSetJSON) (item : JSONSource) :
    P0.loadJSONItem fs item = loadJSONItem fs item := by
  cases item with
  | str f => cases hf : fs f <;> rfl
  | obj f ics =>
    cases hf : fs f with
    | none => rfl
    | some content =>
      cases ics with
      | none => rfl
      | some l =>
        cases l with
        | nil => rfl
        | cons n rest => cases hg : getIcons content (n :: rest) <;> rfl

theorem p0_loadJSONSources (fs : String → Option IconSetJSON) :
    ∀ items, P0.loadJSONSources fs items = loadJSONSources fs items := by
  intro items
  induction items with
  | nil => rfl
  | cons item rest ih =>
    simp only [P0.loadJSONSources, loadJSONSources, p0_loadJSONItem, ih]

theorem p0_forEachCallback (parse : String → Option String)
    (proc : String → Except String String) (set : SVGSet) (name : String) (t : EntryType) :
    P0.forEachCallback parse proc set name t = forEachCallback parse proc set name t := by
  unfold P0.forEachCallback forEachCallback
  by_cases ht : t = EntryType.icon
  · rw [if_neg (by simp [ht])]
  · rw [if_pos ht]

theorem p0_runForEachAux (parse : String → Option String)
    (proc : String → Except String String) :
    ∀ (todo : List (String × EntryType)) (set : SVGSet),
      P0.runForEachAux parse proc set todo = runForEachAux parse proc set todo := by
  intro todo
  induction todo with
  | nil => intro set; rfl
  | cons nt rest ih =>
    intro set
    show P0.runForEachAux parse proc (P0.forEachCallback parse proc set nt.1 nt.2) rest = _
    rw [p0_forEachCallback, ih]
    rfl

theorem p0_runForEach (parse : String → Option String)
    (proc : String → Except String String) :
    P0.runForEach parse proc = runForEach parse proc := by
  funext set0
  unfold P0.runForEach runForEach
  rw [p0_runForEachAux]

theorem p0_processSVG (d : Deps) (monotone : Bool) :
    P0.processSVG d monotone = processSVG d monotone := by
  funext svg
  unfold P0.processSVG processSVG
  rw [p0_monotoneCallback]

theorem p0_collectSVG (d : Deps) (cfg : BundleScriptConfig) :
    P0.collectSVG d cfg = collectSVG d cfg := by
  unfold P0.collectSVG collectSVG
  have hf : (fun s : BundleScriptCustomSVGConfig =>
      exportSVGSet s.pfx
        (P0.runForEach d.parse (P0.processSVG d s.monotone) (d.importDir s.dir s.pfx))) =
      (fun s : BundleScriptCustomSVGConfig =>
      exportSVGSet s.pfx
        (runForEach d.parse (processSVG d s.monotone) (d.importDir s.dir s.pfx))) := by
    funext s
    rw [p0_processSVG, p0_runForEach]
  rw [hf]

theorem p0_collectJSON (d : Deps) (cfg : BundleScriptConfig) :
    P0.collectJSON d cfg = collectJSON d cfg := by
  unfold P0.collectJSON collectJSON P0.resolvedJSONSources resolvedJSONSources
  rw [p0_loadJSONSources, p0_organizeIconsList]
  rfl

theorem p0_emitCSS : P0.emitCSS = emitCSS := by
  funext sets
  rfl

/-- C8: the two script variants, each embedded separately from its own
file, agree on every input: given the same resolution results, file
contents and processing capabilities, both produce the same run outcome,
the same writes, and hence identical CSS output. -/
theorem variants_equivalent :
    ∀ (d : Deps) (cfg : BundleScriptConfig) (target : String),
      buildIconsMain d cfg target = P0.main d cfg target := by
  intro d cfg target
  unfold buildIconsMain P0.main
  rw [p0_collectJSON]
  cases hc : collectJSON d cfg with
  | error e => rfl
  | ok sets => rw [p0_collectSVG, p0_emitCSS]

/-- C2: per-icon isolation for SVG directory sources: with unique entry
names (the icon-set invariant), the final set is exactly the entrywise
outcome: icons that yield no parsed SVG or whose processing throws are
removed, the remaining icons carry their processed bodies, and non-icon
entries survive untouched; moreover, whenever the fatal-tier JSON stage
succeeded, the run still completes and performs its single write
regardless of per-icon failures. -/
theorem svgIsolation_spec (parse : String → Option String)
    (proc : String → Except String String) (set0 : SVGSet)
    (hnd : (set0.map (fun e => e.1)).Nodup) :
    runForEach parse proc set0 = set0.filterMap (stepEntry parse proc) ∧
    (∀ (d : Deps) (cfg : BundleScriptConfig) (target : String)
        (sets : List IconSetJSON),
      collectJSON d cfg = Except.ok sets →
      (buildIconsMain d cfg target).1 = Except.ok () ∧
      (buildIconsMain d cfg target).2.length = 1) := by
  refine ⟨runForEach_filterMap parse proc set0 hnd, ?_⟩
  intro d cfg target sets hok
  unfold buildIconsMain
  rw [hok]
  exact ⟨rfl, rfl⟩

/-- Closed instance of svgIsolation_spec: a directory with one unparseable
entry and two parseable ones keeps exactly the two parseable icons, and
the concrete run still writes once. -/
theorem svgIsolation_spec_witness :
    runForEach (fun s => if s = "bad" then Option.none else some s)
        (fun s => Except.ok (s ++ "!"))
        [("a", EntryType.icon, "p1"), ("x", EntryType.icon, "bad"),
         ("c", EntryType.icon, "p3")] =
      [("a", EntryType.icon, "p1!"), ("c", EntryType.icon, "p3!")] ∧
    (buildIconsMain wDeps { svg := [], icons := [], json := [] } "icons.css").1 =
      Except.ok () ∧
    (buildIconsMain wDeps { svg := [], icons := [], json := [] } "icons.css").2.length = 1 := by
  have h := svgIsolation_spec (fun s => if s = "bad" then Option.none else some s)
    (fun s => Except.ok (s ++ "!"))
    [("a", EntryType.icon, "p1"), ("x", EntryType.icon, "bad"),
     ("c", EntryType.icon, "p3")]
    (by decide)
  refine ⟨?_, h.2 wDeps { svg := [], icons := [], json := [] } "icons.css"
    [{ pfx := "bxl", icons := [("facebook", "b")] },
     { pfx := "bxl", icons := [("facebook", "b")] }] rfl⟩
  rw [h.1]
  rfl

end BuildIcons
